import Mathlib

/-!
Shallow embedding of the call-termination routine, the idle-call watchdog,
and the LLM streaming adapters of the voice-agent repository, together with
proofs about them.  Each definition is translated from the named source
function; timestamps are integers, awaited I/O is modelled by explicit
effect lists, and a raised-or-not flag stands for a fallible awaited call.
-/

/-- Modelled from the spec: the `CallState` record.  Its defining module
(`agent/helper/call_handlers.py`) is absent from the sources; spec section 3
gives its fields: `call_started`, `call_end_recorded`, and a stable room
identifier used as the persistence key.  The uses in
`agent/helper/agent_class.py` read exactly these three fields. -/
structure CallState where
  call_started : Bool
  call_end_recorded : Bool
  room_name : String
deriving DecidableEq

/-- Observable side effects of `EarkartAgent.record_call_end` and
`EarkartAgent.end_call` (`agent/helper/agent_class.py`), in program order:
`setFlag` is the assignment `call_end_recorded = True`, `insertCallEnd` the
awaited `insert_call_end_async` call, `logQueued` / `logRecordError` the two
log statements around it, `waitPlayout` the `wait_for_playout` on in-flight
speech, `sayMsg` a `session.say`, and `hangupCall` the final `hangup()`. -/
inductive Act where
  | setFlag
  | insertCallEnd (room : String) (reason : String)
  | logQueued
  | logRecordError
  | waitPlayout
  | sayMsg (text : String)
  | hangupCall
deriving DecidableEq

/-- `EarkartAgent.record_call_end` (agent_class.py, lines 73-86).  Returns the
updated state and the effects performed, in order.  The guard returns
immediately when `call_end_recorded` is already true or the call never
started.  Otherwise the flag is assigned before the awaited insert;
`ioFails` models `insert_call_end_async` raising, in which case the
exception is caught and logged and the already-set flag is left alone.
The Python function always returns normally. -/
def record_call_end (s : CallState) (reason : String) (ioFails : Bool) :
    CallState × List Act :=
  if s.call_end_recorded || !s.call_started then (s, [])
  else
    let s1 : CallState := { s with call_end_recorded := true }
    if ioFails then
      (s1, [Act.setFlag, Act.insertCallEnd s.room_name reason, Act.logRecordError])
    else
      (s1, [Act.setFlag, Act.insertCallEnd s.room_name reason, Act.logQueued])

/-- The closing line chosen in `EarkartAgent.end_call` from
`current_language`. -/
def end_call_msg (current_language : String) : String :=
  if current_language == "English" then
    "Thank you so much for calling Earkart. Wish you good day ahead"
  else
    "EarKart को call करने के लिए बहुत-बहुत धन्यवाद"

/-- `EarkartAgent.end_call` (agent_class.py, lines 164-188): awaits
`record_call_end "Call ended"`, waits for any in-flight speech
(`speechInFlight` models `ctx.session.current_speech` being non-None),
speaks the language-appropriate closing line, and calls `hangup()`.  Only
the recording step is guarded; the say and the hangup are unconditional.
Logging-only statements are not modelled as effects. -/
def end_call (s : CallState) (current_language : String)
    (ioFails speechInFlight : Bool) : CallState × List Act :=
  let r := record_call_end s "Call ended" ioFails
  (r.1, r.2 ++ (if speechInFlight then [Act.waitPlayout] else [])
      ++ [Act.sayMsg (end_call_msg current_language), Act.hangupCall])

/-- Run a sequence of `record_call_end` invocations on one `CallState`,
each given by its `end_reason` and whether its insert raises; the effect
lists are concatenated in order. -/
def run_record_calls (s : CallState) : List (String × Bool) → CallState × List Act
  | [] => (s, [])
  | c :: cs =>
      let r := record_call_end s c.1 c.2
      let rest := run_record_calls r.1 cs
      (rest.1, r.2 ++ rest.2)

/-- Whether an effect is the awaited recording I/O. -/
def Act.isInsert : Act → Bool
  | Act.insertCallEnd _ _ => true
  | _ => false

/-- Whether an effect is the `call_end_recorded = True` assignment. -/
def Act.isSetFlag : Act → Bool
  | Act.setFlag => true
  | _ => false

/-- Whether an effect is the `hangup()` call. -/
def Act.isHangup : Act → Bool
  | Act.hangupCall => true
  | _ => false

/-- Number of `insertCallEnd` effects in a trace. -/
def countInserts (l : List Act) : Nat := l.countP (fun a => a.isInsert)

/-- Number of `setFlag` effects in a trace. -/
def countSetFlag (l : List Act) : Nat := l.countP (fun a => a.isSetFlag)

/-- Number of `hangupCall` effects in a trace. -/
def countHangups (l : List Act) : Nat := l.countP (fun a => a.isHangup)

/-!  The hosted-provider streaming adapter, `GroqLLMStream._run`
(`livekit-custom-agent-groq/custom_groq_llm.py`). -/

/-- One step of the provider iterator in `GroqLLMStream._run`: either a chunk
whose choices each carry an optional `delta.content` (the code looks only at
`chunk.choices[0]`), or the iterator raising mid-stream. -/
inductive ProviderEv where
  | chunk (choices : List (Option String))
  | raiseErr
deriving DecidableEq

/-- The fallback apology sent by `GroqLLMStream._run` when a completed
response has an empty accumulated buffer. -/
def groq_fallback : String :=
  "I apologize, but I'm having trouble generating a response right now."

/-- The apology sent by the `except` branch of `GroqLLMStream._run` when the
provider raises. -/
def groq_error_msg : String :=
  "I'm sorry, I'm experiencing technical difficulties. Please try again."

/-- The emission loop of `GroqLLMStream._run`: chunks with a non-empty first
choice content are forwarded as deltas; a raise aborts the iteration (events
after it are never consumed) and the `except` branch emits exactly one
apology chunk.  Returns the emitted delta contents in order and whether the
provider raised. -/
def groq_emit : List ProviderEv → List String × Bool
  | [] => ([], false)
  | ProviderEv.raiseErr :: _ => ([groq_error_msg], true)
  | ProviderEv.chunk cs :: rest =>
      let r := groq_emit rest
      match cs.head? with
      | some (some c) => if c = "" then r else (c :: r.1, r.2)
      | _ => r

/-- `GroqLLMStream._run` in full: if the stream completed without raising and
the content buffer stayed empty (equivalently, no delta was emitted), one
fallback apology chunk is sent; otherwise the emitted deltas stand.  The
function is total: no exception escapes to the caller. -/
def groq_run (evs : List ProviderEv) : List String :=
  let r := groq_emit evs
  if !r.2 && r.1.isEmpty then [groq_fallback] else r.1

/-!  The idle-call watchdog, `idle_call_watcher`
(`utils/hungup_idle_call.py`, active lower version).  Timestamps are
integers; the `say` of a warning is instantaneous, so a warning issued at a
tick completes at that tick's time. -/

/-- An observable event in a run of `idle_call_watcher`: a
`conversation_item_added` callback carrying a user or an assistant item, or
one iteration of the 1-second polling loop, at time `t`. -/
inductive WEv where
  | user (t : ℤ)
  | agent (t : ℤ)
  | tick (t : ℤ)
deriving DecidableEq

/-- Whether the event is an assistant-turn callback. -/
def WEv.isAgent : WEv → Bool
  | WEv.agent _ => true
  | _ => false

/-- Whether the event is a user-turn callback. -/
def WEv.isUser : WEv → Bool
  | WEv.user _ => true
  | _ => false

/-- Whether the event is a polling tick. -/
def WEv.isTick : WEv → Bool
  | WEv.tick _ => true
  | _ => false

/-- The event's timestamp. -/
def WEv.time : WEv → ℤ
  | WEv.user t => t
  | WEv.agent t => t
  | WEv.tick t => t

/-- The mutable loop variables of `idle_call_watcher` plus its observable
outputs: the times at which the idle warning was spoken, and the time at
which the closing announcement and `hangup()` ran (after which the loop has
broken, so further ticks do nothing). -/
structure WatchState where
  last_agent_finish_time : Option ℤ
  last_user_activity : ℤ
  warning_sent : Bool
  terminated : Bool
  warnings : List ℤ
  hangup_at : Option ℤ
deriving DecidableEq

/-- Watcher state at start time `t0`: `last_agent_finish_time = None`,
`last_user_activity = datetime.now()`, `warning_sent = False`. -/
def watch_init (t0 : ℤ) : WatchState :=
  ⟨none, t0, false, false, [], none⟩

/-- One event of `idle_call_watcher` with thresholds `warning_timeout` and
`idle_timeout`.  The callbacks update the nonlocal variables; a tick first
skips while the anchor is unset, then skips while `last_user_activity`
strictly postdates the anchor, computes `elapsed` once, sends the warning
when `elapsed > warning_timeout` and none was sent (re-anchoring
`last_agent_finish_time` to now), and finally hangs up when the
previously computed `elapsed > idle_timeout`, breaking the loop.  The
session is taken as live and `say` as succeeding throughout. -/
def watch_step (warning_timeout idle_timeout : ℤ) (s : WatchState) : WEv → WatchState
  | WEv.user t => { s with last_user_activity := t, warning_sent := false }
  | WEv.agent t => { s with last_agent_finish_time := some t, warning_sent := false }
  | WEv.tick t =>
      if s.terminated then s
      else
        match s.last_agent_finish_time with
        | none => s
        | some anchor =>
            if s.last_user_activity > anchor then s
            else
              let elapsed := t - anchor
              let s1 :=
                if elapsed > warning_timeout ∧ s.warning_sent = false then
                  { s with warning_sent := true, last_agent_finish_time := some t,
                           warnings := s.warnings ++ [t] }
                else s
              if elapsed > idle_timeout then
                { s1 with terminated := true, hangup_at := some t }
              else s1

/-- Run the watcher over a chronological event list from its start state. -/
def watch_run (warning_timeout idle_timeout t0 : ℤ) (evs : List WEv) : WatchState :=
  evs.foldl (watch_step warning_timeout idle_timeout) (watch_init t0)

/-- Polling ticks at whole seconds `1, 2, ..., n` (the loop sleeps one second
per iteration). -/
def secondTicks (n : ℕ) : List WEv :=
  (List.range n).map (fun i => WEv.tick ((i : ℤ) + 1))

/-- The spec's silence scenario: the assistant finishes a turn at `t = 0`
(also the watcher start time), then nothing but polling ticks. -/
def silenceTrace (n : ℕ) : List WEv :=
  WEv.agent 0 :: secondTicks n

/-!  The socket streaming backend, `CustomWebSocketLLM`
(`livekit-agent-custom-female-metrics/custom_websocket_llm.py`). -/

/-- An inbound socket frame as examined by
`CustomWebSocketLLM._receive_response`: either raw text that fails JSON
parsing, or a parsed object with the fields the code reads through `.get`
(`response_type`, `response_id`, `content`, `content_complete`,
`end_call`); an object missing `response_type` or `response_id` behaves
like one whose value matches nothing, and the content/flag defaults are
the empty string and false. -/
inductive Frame where
  | malformed
  | obj (response_type : String) (response_id : ℤ) (content : String)
      (content_complete : Bool) (end_call : Bool)
deriving DecidableEq

/-- Whether a frame belongs to the outstanding response `expected`: parsed,
`response_type == "response"`, and `response_id == expected`. -/
def Frame.matchesId (expected : ℤ) : Frame → Bool
  | Frame.malformed => false
  | Frame.obj ty rid _ _ _ => ty == "response" && rid == expected

/-- The frame's `content_complete` flag (false for unparsable frames). -/
def Frame.isComplete : Frame → Bool
  | Frame.malformed => false
  | Frame.obj _ _ _ cc _ => cc

/-- The frame's `content` field (empty for unparsable frames). -/
def Frame.contentOf : Frame → String
  | Frame.malformed => ""
  | Frame.obj _ _ c _ _ => c

/-- `CustomWebSocketLLM._receive_response` over a sequence of inbound frames:
unparsable frames are logged and skipped; frames not matching the
outstanding `response_id` (or of another `response_type`) are ignored; a
matching frame yields its content only when non-empty, and a matching frame
with `content_complete` breaks the loop.  Returns the yielded contents in
order and whether the loop ended by completion (an exhausted list models
the code still blocking on `recv`). -/
def receive_response (expected : ℤ) : List Frame → List String × Bool
  | [] => ([], false)
  | Frame.malformed :: rest => receive_response expected rest
  | Frame.obj ty rid content cc ec :: rest =>
      if ty == "response" && rid == expected then
        let yielded := if content = "" then [] else [content]
        if cc then (yielded, true)
        else
          let r := receive_response expected rest
          (yielded ++ r.1, r.2)
      else
        have _ := ec
        receive_response expected rest

/-- Modelled from the spec claim's words, for comparison with
`receive_response`: the frames considered are exactly those up to and
including the first frame that matches the outstanding id and carries the
completion flag (all frames if there is none). -/
def frames_upto_complete (expected : ℤ) (fs : List Frame) : List Frame :=
  fs.takeWhile (fun f => !(f.matchesId expected && f.isComplete))
    ++ (fs.dropWhile (fun f => !(f.matchesId expected && f.isComplete))).take 1

/-- Modelled from the spec claim's words: the stream yields exactly the
non-empty content fields of the matching frames among `frames_upto_complete`,
in arrival order, and reports completion exactly when some frame matches the
id and carries the completion flag. -/
def spec_receive (expected : ℤ) (fs : List Frame) : List String × Bool :=
  ((frames_upto_complete expected fs).filterMap
      (fun f => if f.matchesId expected && !(f.contentOf == "")
                then some f.contentOf else none),
    fs.any (fun f => f.matchesId expected && f.isComplete))

/-- The content carried by a chat item, as read by
`CustomWebSocketLLM._extract_message_content`: either a plain string or a
list of parts joined with spaces. -/
inductive MsgContent where
  | str (s : String)
  | parts (l : List String)
deriving DecidableEq

/-- A chat-context item as read by `CustomWebSocketLLM._send_request`:
its `role` attribute and its content. -/
structure ChatItem where
  role : String
  content : MsgContent
deriving DecidableEq

/-- `CustomWebSocketLLM._extract_message_content`. -/
def extract_message_content : MsgContent → String
  | MsgContent.str s => s
  | MsgContent.parts l => String.intercalate " " l

/-- The scan in `CustomWebSocketLLM._send_request`: walk `chat_ctx.items` in
reverse and take the first item whose role is `"user"`. -/
def latest_user_message (items : List ChatItem) : Option ChatItem :=
  items.reverse.find? (fun m => m.role == "user")

/-- The outbound request built by `CustomWebSocketLLM._send_request`. -/
structure WSRequest where
  interaction_type : String
  response_id : ℤ
  transcript : List (String × String)
deriving DecidableEq

/-- `CustomWebSocketLLM._send_request` (lines 89-127): with the request lock
held, find the latest user message; if none, raise `ValueError` before
incrementing the counter or transmitting anything; otherwise increment the
response-id counter, build the request carrying only that message, and send
it.  Returns the outcome together with the new counter value. -/
def send_request (items : List ChatItem) (counter : ℤ) :
    Except String WSRequest × ℤ :=
  match latest_user_message items with
  | none => (Except.error "No user message found", counter)
  | some m =>
      (Except.ok ⟨"response_required", counter + 1,
          [("user", extract_message_content m.content)]⟩, counter + 1)

/-!  The lock discipline of the socket backend.  `_send_request` holds
`_request_lock` for the duration of the send, and `_receive_response` holds
the same lock for the duration of the response drain, but the lock is
released between the two (`async with` blocks in two separate coroutines). -/

/-- An atomic step of a socket request/response cycle, tagged with the task
performing it: acquiring or releasing `_request_lock`, sending the request
frame, or draining the response frames of a given response id. -/
inductive LockAct where
  | acq (tid : ℕ)
  | rel (tid : ℕ)
  | send (tid : ℕ) (rid : ℤ)
  | drain (tid : ℕ) (rid : ℤ)
deriving DecidableEq

/-- The task performing the step. -/
def LockAct.tid : LockAct → ℕ
  | LockAct.acq t => t
  | LockAct.rel t => t
  | LockAct.send t _ => t
  | LockAct.drain t _ => t

/-- One chat turn against the socket backend, as the code performs it:
`_send_request` acquires the lock, sends, and releases; then
`_receive_response` re-acquires the same lock, drains, and releases. -/
def request_cycle (tid : ℕ) (rid : ℤ) : List LockAct :=
  [LockAct.acq tid, LockAct.send tid rid, LockAct.rel tid,
   LockAct.acq tid, LockAct.drain tid rid, LockAct.rel tid]

/-- Whether `s` is an interleaving of the step sequences `p` and `q`
(each kept in program order). -/
def isInterleaving : List LockAct → List LockAct → List LockAct → Bool
  | [], p, q => p.isEmpty && q.isEmpty
  | x :: s, p, q =>
      (match p with
        | y :: p1 => y = x && isInterleaving s p1 q
        | [] => false)
      || (match q with
        | z :: q1 => z = x && isInterleaving s p q1
        | [] => false)

/-- All interleavings of two step sequences, by structural recursion on a
fuel bound (sufficient fuel is supplied below, so the empty fuel-exhausted
case is never reached). -/
def interleavingsAux : ℕ → List LockAct → List LockAct → List (List LockAct)
  | _, [], q => [q]
  | _, p, [] => [p]
  | 0, _, _ => []
  | n + 1, x :: p, y :: q =>
      (interleavingsAux n p (y :: q)).map (fun s => x :: s)
        ++ (interleavingsAux n (x :: p) q).map (fun s => y :: s)

/-- All interleavings of two step sequences. -/
def interleavings (p q : List LockAct) : List (List LockAct) :=
  interleavingsAux (p.length + q.length) p q

/-- Whether a schedule respects the asyncio lock: an acquire only succeeds
while the lock is free, a release only by the holder; `holder` is the task
currently holding the lock. -/
def lockOk (holder : Option ℕ) : List LockAct → Bool
  | [] => true
  | LockAct.acq t :: rest =>
      match holder with
      | none => lockOk (some t) rest
      | some _ => false
  | LockAct.rel t :: rest =>
      match holder with
      | some h => t = h && lockOk none rest
      | none => false
  | a :: rest =>
      have _ := a
      lockOk holder rest

/-- Whether every step taken while the lock is held belongs to the holding
task, i.e. the locked sections are contiguous critical sections. -/
def exclusive (holder : Option ℕ) : List LockAct → Bool
  | [] => true
  | a :: rest =>
      match holder with
      | some h =>
          a.tid = h &&
            exclusive (match a with
              | LockAct.acq t => some t
              | LockAct.rel _ => none
              | _ => holder) rest
      | none =>
          exclusive (match a with
            | LockAct.acq t => some t
            | LockAct.rel _ => none
            | _ => none) rest

/-- A lock-respecting schedule of two chat turns in which the second turn's
send lands between the first turn's send and the drain of its response:
possible because the lock is released between `_send_request` and
`_receive_response`. -/
def cross_schedule : List LockAct :=
  [LockAct.acq 1, LockAct.send 1 1, LockAct.rel 1,
   LockAct.acq 2, LockAct.send 2 2, LockAct.rel 2,
   LockAct.acq 1, LockAct.drain 1 1, LockAct.rel 1,
   LockAct.acq 2, LockAct.drain 2 2, LockAct.rel 2]

/-!  Lemmas about the terminator. -/

theorem record_call_end_of_recorded (s : CallState) (reason : String) (f : Bool)
    (h : s.call_end_recorded = true) : record_call_end s reason f = (s, []) := by
  simp [record_call_end, h]

theorem run_record_calls_of_recorded (s : CallState) (cs : List (String × Bool))
    (h : s.call_end_recorded = true) : run_record_calls s cs = (s, []) := by
  induction cs with
  | nil => rfl
  | cons c cs ih =>
      simp [run_record_calls, record_call_end_of_recorded s c.1 c.2 h, ih]

theorem record_call_end_flag (s : CallState) (reason : String) (f : Bool) :
    (record_call_end s reason f).1.call_end_recorded
      = (s.call_end_recorded || s.call_started) := by
  cases f <;> cases hc : s.call_end_recorded <;> cases hs : s.call_started <;>
    simp [record_call_end, hc, hs]

theorem countSetFlag_run_le_one (s : CallState) (cs : List (String × Bool)) :
    countSetFlag (run_record_calls s cs).2 ≤ 1 := by
  induction cs generalizing s with
  | nil => simp [run_record_calls, countSetFlag]
  | cons c cs ih =>
      cases hc : s.call_end_recorded with
      | true =>
          rw [run_record_calls_of_recorded s (c :: cs) hc]
          simp [countSetFlag]
      | false =>
          cases hs : s.call_started with
          | false =>
              have hrec : record_call_end s c.1 c.2 = (s, []) := by
                simp [record_call_end, hc, hs]
              simpa [run_record_calls, hrec] using ih s
          | true =>
              have hflag : (record_call_end s c.1 c.2).1.call_end_recorded = true := by
                rw [record_call_end_flag]; simp [hc, hs]
              have hrest :
                  run_record_calls (record_call_end s c.1 c.2).1 cs
                    = ((record_call_end s c.1 c.2).1, []) :=
                run_record_calls_of_recorded _ cs hflag
              have hcount : countSetFlag (record_call_end s c.1 c.2).2 ≤ 1 := by
                cases c.2 <;> simp [record_call_end, hc, hs, countSetFlag, Act.isSetFlag]
              simpa [run_record_calls, hrest, countSetFlag, List.countP_append]
                using hcount

theorem run_record_calls_flag_mono (s : CallState) (cs : List (String × Bool))
    (h : (run_record_calls s cs).1.call_end_recorded = false) :
    s.call_end_recorded = false := by
  cases hc : s.call_end_recorded with
  | false => rfl
  | true => rw [run_record_calls_of_recorded s cs hc] at h; rw [hc] at h; exact h

/-- C2: across every sequence of `record_call_end` invocations on one
`CallState`, the `call_end_recorded` flag is assigned at most once, it is
never reset to false (a run ending with the flag false started with it
false), each non-trivial invocation performs the `setFlag` assignment
strictly before the awaited recording I/O, an invocation finding the flag
set returns immediately with no effects, and a failing recording I/O leaves
the flag set and is logged (the function returns normally, so the failure
does not propagate). -/
theorem record_call_end_at_most_once (s : CallState) (cs : List (String × Bool))
    (reason : String) (f : Bool) :
    countSetFlag (run_record_calls s cs).2 ≤ 1 ∧
    ((run_record_calls s cs).1.call_end_recorded = false →
      s.call_end_recorded = false) ∧
    ((record_call_end s reason f).2 = [] ∨
      ∃ rest, (record_call_end s reason f).2 =
        Act.setFlag :: Act.insertCallEnd s.room_name reason :: rest) ∧
    (s.call_end_recorded = true → record_call_end s reason f = (s, [])) ∧
    (s.call_end_recorded = false → s.call_started = true →
      (record_call_end s reason true).1.call_end_recorded = true ∧
      Act.logRecordError ∈ (record_call_end s reason true).2) := by
  refine ⟨countSetFlag_run_le_one s cs, run_record_calls_flag_mono s cs, ?_, ?_, ?_⟩
  · cases hc : s.call_end_recorded with
    | true => exact Or.inl (by simp [record_call_end, hc])
    | false =>
        cases hs : s.call_started with
        | false => exact Or.inl (by simp [record_call_end, hc, hs])
        | true =>
            refine Or.inr ?_
            cases f with
            | false => exact ⟨[Act.logQueued], by simp [record_call_end, hc, hs]⟩
            | true => exact ⟨[Act.logRecordError], by simp [record_call_end, hc, hs]⟩
  · exact record_call_end_of_recorded s reason f
  · intro hc hs
    constructor
    · rw [record_call_end_flag]; simp [hc, hs]
    · simp [record_call_end, hc, hs]

/-- Witness for C2 at a concrete state and call sequence. -/
theorem record_call_end_at_most_once_check :
    countSetFlag (run_record_calls ⟨true, false, "room-1"⟩
      [("Call ended", false), ("Call ended", true)]).2 ≤ 1 ∧
    (record_call_end ⟨true, false, "room-1"⟩ "Call ended" true).1.call_end_recorded
      = true :=
  ⟨(record_call_end_at_most_once ⟨true, false, "room-1"⟩
      [("Call ended", false), ("Call ended", true)] "Call ended" true).1,
   ((record_call_end_at_most_once ⟨true, false, "room-1"⟩ [] "Call ended" true).2.2.2.2
      rfl rfl).1⟩

/-- C1 counterexample: starting from a started, not-yet-recorded call, the
second invocation of `end_call` on the same `CallState` does not return
immediately (its effect list is non-empty) and it performs `hangup()`
again, so the hangup side effect is not restricted to the first call. -/
theorem end_call_twice_cex :
    (end_call (end_call ⟨true, false, "room-1"⟩ "English" false false).1
        "English" false false).2 ≠ [] ∧
    Act.hangupCall ∈ (end_call (end_call ⟨true, false, "room-1"⟩ "English" false false).1
        "English" false false).2 := by
  decide

/-- C1 amended: calling `end_call` twice in sequence on the same `CallState`
restricts only the recording side effect to the first call: the embedded
`record_call_end` returns immediately on the second call (its guard sees
`call_end_recorded` already true), so the recording I/O runs exactly once
and the state is unchanged by the second call; but `end_call` itself does
not return early, and the closing line and `hangup()` are performed on each
of the two calls. -/
theorem end_call_recording_only_once (s : CallState) (lang1 lang2 : String)
    (f1 f2 sp1 sp2 : Bool) (hstart : s.call_started = true)
    (hrec : s.call_end_recorded = false) :
    countInserts (end_call s lang1 f1 sp1).2 = 1 ∧
    countInserts (end_call (end_call s lang1 f1 sp1).1 lang2 f2 sp2).2 = 0 ∧
    countHangups (end_call s lang1 f1 sp1).2 = 1 ∧
    countHangups (end_call (end_call s lang1 f1 sp1).1 lang2 f2 sp2).2 = 1 ∧
    (end_call s lang1 f1 sp1).1.call_end_recorded = true ∧
    (end_call (end_call s lang1 f1 sp1).1 lang2 f2 sp2).1 = (end_call s lang1 f1 sp1).1 := by
  cases f1 <;> cases f2 <;> cases sp1 <;> cases sp2 <;>
    simp [end_call, record_call_end, hstart, hrec, countInserts, countHangups,
      Act.isInsert, Act.isHangup]

theorem groq_emit_no_raise (evs : List ProviderEv)
    (h : ∀ e ∈ evs, e ≠ ProviderEv.raiseErr) : (groq_emit evs).2 = false := by
  induction evs with
  | nil => rfl
  | cons e rest ih =>
      cases e with
      | raiseErr => exact absurd rfl (h _ (List.mem_cons_self _ _))
      | chunk cs =>
          have hr := ih (fun x hx => h x (List.mem_cons_of_mem _ hx))
          cases hh : cs.head? with
          | none => simpa [groq_emit, hh] using hr
          | some o =>
              cases o with
              | none => simpa [groq_emit, hh] using hr
              | some c =>
                  by_cases hc : c = "" <;> simp [groq_emit, hh, hc, hr]

theorem groq_emit_append_raise (pre rest : List ProviderEv)
    (h : ∀ e ∈ pre, e ≠ ProviderEv.raiseErr) :
    groq_emit (pre ++ ProviderEv.raiseErr :: rest)
      = ((groq_emit pre).1 ++ [groq_error_msg], true) := by
  induction pre with
  | nil => rfl
  | cons e p ih =>
      cases e with
      | raiseErr => exact absurd rfl (h _ (List.mem_cons_self _ _))
      | chunk cs =>
          have hr := ih (fun x hx => h x (List.mem_cons_of_mem _ hx))
          cases hh : cs.head? with
          | none => simpa [groq_emit, hh] using hr
          | some o =>
              cases o with
              | none => simpa [groq_emit, hh] using hr
              | some c =>
                  by_cases hc : c = "" <;> simp [groq_emit, hh, hc, hr]

/-- C8: when the provider iterator raises after a raise-free prefix of
chunks, `GroqLLMStream._run` emits exactly the deltas of that prefix
followed by one apology delta and then ends; events past the raise are
never consumed, and the function returns normally (no exception escapes). -/
theorem groq_raise_mid_stream (pre rest : List ProviderEv)
    (h : ∀ e ∈ pre, e ≠ ProviderEv.raiseErr) :
    groq_run (pre ++ ProviderEv.raiseErr :: rest)
      = (groq_emit pre).1 ++ [groq_error_msg] := by
  unfold groq_run
  rw [groq_emit_append_raise pre rest h]
  simp

/-- Witness for C8: a raise after two partial deltas yields the two deltas
and one apology. -/
theorem groq_raise_mid_stream_check :
    groq_run [ProviderEv.chunk [some "He"], ProviderEv.chunk [some "llo"],
      ProviderEv.raiseErr] = ["He", "llo", groq_error_msg] := by
  have h := groq_raise_mid_stream
    [ProviderEv.chunk [some "He"], ProviderEv.chunk [some "llo"]] [] (by decide)
  have h2 : (groq_emit [ProviderEv.chunk [some "He"],
      ProviderEv.chunk [some "llo"]]).1 = ["He", "llo"] := by decide
  rw [h2] at h
  simpa using h

/-- C9: a provider stream that completes without raising and emits no delta
(the accumulated content buffer stays empty, since the buffer grows exactly
when a delta is emitted) makes `GroqLLMStream._run` send exactly one
fallback apology delta instead of ending silently. -/
theorem groq_empty_response_fallback (evs : List ProviderEv)
    (hraise : ∀ e ∈ evs, e ≠ ProviderEv.raiseErr)
    (hempty : (groq_emit evs).1 = []) :
    groq_run evs = [groq_fallback] := by
  unfold groq_run
  simp [groq_emit_no_raise evs hraise, hempty]

/-- Witness for C9: chunks with no first choice or empty content emit
nothing, and the run yields exactly the fallback apology. -/
theorem groq_empty_response_fallback_check :
    groq_run [ProviderEv.chunk [], ProviderEv.chunk [some ""],
      ProviderEv.chunk [none]] = [groq_fallback] :=
  groq_empty_response_fallback
    [ProviderEv.chunk [], ProviderEv.chunk [some ""], ProviderEv.chunk [none]]
    (by decide) (by decide)

theorem watch_foldl_no_agent (wt it : ℤ) (evs : List WEv) (s : WatchState)
    (hanchor : s.last_agent_finish_time = none)
    (h : ∀ e ∈ evs, e.isAgent = false) :
    (List.foldl (watch_step wt it) s evs).warnings = s.warnings ∧
    (List.foldl (watch_step wt it) s evs).hangup_at = s.hangup_at := by
  induction evs generalizing s with
  | nil => exact ⟨rfl, rfl⟩
  | cons e rest ih =>
      cases e with
      | user t =>
          have := ih { s with last_user_activity := t, warning_sent := false }
            hanchor (fun x hx => h x (List.mem_cons_of_mem _ hx))
          simpa [watch_step] using this
      | agent t =>
          have := h (WEv.agent t) (List.mem_cons_self _ _)
          simp [WEv.isAgent] at this
      | tick t =>
          have hstep : watch_step wt it s (WEv.tick t) = s := by
            simp [watch_step, hanchor]
          rw [List.foldl_cons, hstep]
          exact ih s hanchor (fun x hx => h x (List.mem_cons_of_mem _ hx))

/-- C6: over any event sequence containing no assistant turn, the watchdog
speaks no warning and never invokes termination: while
`last_agent_finish_time` is unset every polling tick skips both checks. -/
theorem watchdog_inactive_without_agent_turn (wt it t0 : ℤ) (evs : List WEv)
    (h : ∀ e ∈ evs, e.isAgent = false) :
    (watch_run wt it t0 evs).warnings = [] ∧
    (watch_run wt it t0 evs).hangup_at = none := by
  have := watch_foldl_no_agent wt it evs (watch_init t0) rfl h
  simpa [watch_run, watch_init] using this

/-- Witness for C6: user turns and ticks alone never fire the watchdog. -/
theorem watchdog_inactive_without_agent_turn_check :
    (watch_run 10 15 0 [WEv.tick 1, WEv.user 2, WEv.tick 30,
        WEv.tick 100]).warnings = [] ∧
    (watch_run 10 15 0 [WEv.tick 1, WEv.user 2, WEv.tick 30,
        WEv.tick 100]).hangup_at = none :=
  watchdog_inactive_without_agent_turn 10 15 0
    [WEv.tick 1, WEv.user 2, WEv.tick 30, WEv.tick 100] (by decide)

theorem watch_foldl_suppressed (wt it a : ℤ) (tr : List WEv) (s : WatchState)
    (hanchor : s.last_agent_finish_time = some a)
    (hu : s.last_user_activity > a)
    (htr : ∀ e ∈ tr, e.isAgent = false ∧ (e.isUser = true → e.time > a)) :
    (List.foldl (watch_step wt it) s tr).warnings = s.warnings ∧
    (List.foldl (watch_step wt it) s tr).hangup_at = s.hangup_at := by
  induction tr generalizing s with
  | nil => exact ⟨rfl, rfl⟩
  | cons e rest ih =>
      cases e with
      | user t =>
          have ht : (t : ℤ) > a :=
            (htr (WEv.user t) (List.mem_cons_self _ _)).2 rfl
          have := ih { s with last_user_activity := t, warning_sent := false }
            hanchor ht (fun x hx => htr x (List.mem_cons_of_mem _ hx))
          simpa [watch_step] using this
      | agent t =>
          have := (htr (WEv.agent t) (List.mem_cons_self _ _)).1
          simp [WEv.isAgent] at this
      | tick t =>
          have hstep : watch_step wt it s (WEv.tick t) = s := by
            simp [watch_step, hanchor, hu]
          rw [List.foldl_cons, hstep]
          exact ih s hanchor hu (fun x hx => htr x (List.mem_cons_of_mem _ hx))

/-- C7: after a user turn whose time strictly postdates the current anchor
(the last assistant-turn completion), and until the next assistant turn,
every tick's elapsed-idle check is suppressed — no warning is spoken and no
termination occurs — and the user turn itself clears `warning_sent`. -/
theorem watchdog_paused_after_user_turn (wt it a u : ℤ) (s : WatchState)
    (tr : List WEv)
    (hanchor : s.last_agent_finish_time = some a) (hu : u > a)
    (htr : ∀ e ∈ tr, e.isAgent = false ∧ (e.isUser = true → e.time > a)) :
    (watch_step wt it s (WEv.user u)).warning_sent = false ∧
    (List.foldl (watch_step wt it) (watch_step wt it s (WEv.user u)) tr).warnings
      = s.warnings ∧
    (List.foldl (watch_step wt it) (watch_step wt it s (WEv.user u)) tr).hangup_at
      = s.hangup_at := by
  have hstep : watch_step wt it s (WEv.user u)
      = { s with last_user_activity := u, warning_sent := false } := rfl
  have := watch_foldl_suppressed wt it a tr
    { s with last_user_activity := u, warning_sent := false } hanchor hu htr
  rw [hstep]
  exact ⟨rfl, this.1, this.2⟩

/-- Witness for C7: the user speaks at t = 5 after the assistant's t = 0
turn; the t = 11 and later ticks stay silent. -/
theorem watchdog_paused_after_user_turn_check :
    (List.foldl (watch_step 10 15)
        (watch_step 10 15 (watch_run 10 15 0 [WEv.agent 0, WEv.tick 1]) (WEv.user 5))
        [WEv.tick 11, WEv.tick 26, WEv.tick 100]).warnings
      = (watch_run 10 15 0 [WEv.agent 0, WEv.tick 1]).warnings ∧
    (List.foldl (watch_step 10 15)
        (watch_step 10 15 (watch_run 10 15 0 [WEv.agent 0, WEv.tick 1]) (WEv.user 5))
        [WEv.tick 11, WEv.tick 26, WEv.tick 100]).hangup_at
      = (watch_run 10 15 0 [WEv.agent 0, WEv.tick 1]).hangup_at := by
  have h := watchdog_paused_after_user_turn 10 15 0 5
    (watch_run 10 15 0 [WEv.agent 0, WEv.tick 1])
    [WEv.tick 11, WEv.tick 26, WEv.tick 100] (by decide) (by decide) (by decide)
  exact ⟨h.2.1, h.2.2⟩

theorem silence_prefix_eval :
    watch_run 10 15 0 (silenceTrace 27)
      = ⟨some 11, 0, true, true, [11], some 27⟩ := by
  decide

theorem watch_foldl_terminated (wt it : ℤ) (tr : List WEv) (s : WatchState)
    (hterm : s.terminated = true) (htr : ∀ e ∈ tr, e.isTick = true) :
    List.foldl (watch_step wt it) s tr = s := by
  induction tr with
  | nil => rfl
  | cons e rest ih =>
      cases e with
      | user t =>
          have := htr (WEv.user t) (List.mem_cons_self _ _)
          simp [WEv.isTick] at this
      | agent t =>
          have := htr (WEv.agent t) (List.mem_cons_self _ _)
          simp [WEv.isTick] at this
      | tick t =>
          have hstep : watch_step wt it s (WEv.tick t) = s := by
            simp [watch_step, hterm]
          rw [List.foldl_cons, hstep]
          exact ih (fun x hx => htr x (List.mem_cons_of_mem _ hx))

/-- C3 counterexample: in the spec's silence scenario (assistant turn at
t = 0, thresholds 10 and 15, polling ticks each second), the watchdog does
not speak the warning at t = 10 — the strict `elapsed > warning_timeout`
comparison first holds at the t = 11 tick — and termination does not occur
at t = 25: by tick 26 no hangup has happened, and the full run hangs up at
t = 27. -/
theorem idle_scenario_timing_cex :
    (watch_run 10 15 0 (silenceTrace 27)).warnings ≠ [(10 : ℤ)] ∧
    ¬ ((10 : ℤ) ∈ (watch_run 10 15 0 (silenceTrace 27)).warnings) ∧
    (watch_run 10 15 0 (silenceTrace 27)).hangup_at ≠ some (25 : ℤ) ∧
    (watch_run 10 15 0 (silenceTrace 26)).hangup_at = none := by
  decide

/-- C3 amended: in the silence scenario with warning_threshold = 10 and
idle_threshold = 15 and 1-second polling, the watchdog speaks exactly one
warning, at t = 11 — the first tick at which the strict comparison
`elapsed > warning_threshold` holds — and re-anchors the idle clock to the
warning's completion time, so under continued silence (any further ticks)
the closing announcement and termination occur at t = 27, the first tick
with elapsed from the post-warning anchor strictly above idle_threshold
(11 + 15 = 26 < 27), never measured from the pre-warning anchor (which
would terminate at t = 16); no termination has occurred by t = 26. -/
theorem idle_warning_reanchors (extra : List WEv)
    (h : ∀ e ∈ extra, e.isTick = true) :
    (watch_run 10 15 0 (silenceTrace 27 ++ extra)).warnings = [(11 : ℤ)] ∧
    (watch_run 10 15 0 (silenceTrace 27 ++ extra)).hangup_at = some (27 : ℤ) ∧
    (watch_run 10 15 0 (silenceTrace 16)).hangup_at = none := by
  have hsplit : watch_run 10 15 0 (silenceTrace 27 ++ extra)
      = List.foldl (watch_step 10 15) (watch_run 10 15 0 (silenceTrace 27)) extra := by
    simp [watch_run, List.foldl_append]
  rw [hsplit, silence_prefix_eval, watch_foldl_terminated 10 15 extra _ rfl h]
  exact ⟨rfl, rfl, by decide⟩

/-- Witness for C3's amended statement: one extra minute of silent ticks
changes nothing after the t = 27 hangup. -/
theorem idle_warning_reanchors_check :
    (watch_run 10 15 0 (silenceTrace 27 ++ [WEv.tick 60])).warnings = [(11 : ℤ)] ∧
    (watch_run 10 15 0 (silenceTrace 27 ++ [WEv.tick 60])).hangup_at
      = some (27 : ℤ) := by
  have h := idle_warning_reanchors [WEv.tick 60] (by decide)
  exact ⟨h.1, h.2.1⟩

/-- C4 counterexample: a lock-respecting interleaving of two socket chat
turns (each running `_send_request` then `_receive_response`, both built
from `request_cycle`) in which the second turn's send lands strictly
between the first request's send and the draining of its response — the
request lock is released between the two `async with` blocks, so no single
lock holds across a request's send and its receive. -/
theorem socket_send_interleaving_cex :
    isInterleaving cross_schedule (request_cycle 1 1) (request_cycle 2 2) = true ∧
    lockOk none cross_schedule = true ∧
    cross_schedule[1]? = some (LockAct.send 1 1) ∧
    cross_schedule[4]? = some (LockAct.send 2 2) ∧
    cross_schedule[7]? = some (LockAct.drain 1 1) := by
  decide

set_option maxRecDepth 100000 in
theorem all_interleavings_exclusive :
    ((interleavings (request_cycle 1 1) (request_cycle 2 2)).all
      (fun s => !(lockOk none s) || exclusive none s)) = true := by
  rfl

/-- C4 amended: the request lock serializes the send phases and the
response-drain phases separately — in every lock-respecting interleaving of
two chat turns, each locked section runs to its release without steps from
the other task, so two sends (or two drains) can never interleave — but the
lock is released between a request's send and the draining of its response,
so a second turn's send may occur in that window (as `cross_schedule`
shows). -/
theorem socket_lock_serializes_sections :
    ∀ s ∈ interleavings (request_cycle 1 1) (request_cycle 2 2),
      lockOk none s = true → exclusive none s = true := by
  intro s hs hlock
  have h := List.all_eq_true.mp all_interleavings_exclusive s hs
  rw [hlock] at h
  simpa using h

set_option maxRecDepth 100000 in
theorem cross_schedule_mem :
    cross_schedule ∈ interleavings (request_cycle 1 1) (request_cycle 2 2) :=
  List.mem_of_elem_eq_true (by rfl)

/-- Witness for C4's amended statement: the crossing schedule itself keeps
every locked section contiguous. -/
theorem socket_lock_serializes_sections_check :
    exclusive none cross_schedule = true :=
  socket_lock_serializes_sections cross_schedule cross_schedule_mem (by rfl)

/-- C5: `_receive_response` agrees with the spec-side description on every
frame sequence — it yields exactly the non-empty contents of the frames
matching the outstanding id, in arrival order, stops at the first matching
frame with the completion flag (later frames untouched, and an empty-content
completing frame adds no trailing delta), and discards frames with another
id, another `response_type`, or malformed JSON. -/
theorem receive_response_eq_spec (expected : ℤ) (fs : List Frame) :
    receive_response expected fs = spec_receive expected fs := by
  induction fs with
  | nil => rfl
  | cons f rest ih =>
      cases f with
      | malformed =>
          simpa [receive_response, spec_receive, frames_upto_complete,
            Frame.matchesId, Frame.isComplete, Frame.contentOf] using ih
      | obj ty rid c cc ec =>
          by_cases hm : (ty == "response" && rid == expected) = true
          · cases hcc : cc with
            | true =>
                by_cases hc : c = "" <;>
                  simp [receive_response, spec_receive, frames_upto_complete,
                    Frame.matchesId, Frame.isComplete, Frame.contentOf, hm, hc]
            | false =>
                by_cases hc : c = "" <;>
                  simp [receive_response, spec_receive, frames_upto_complete,
                    Frame.matchesId, Frame.isComplete, Frame.contentOf, hm, hc, ih]
          · simp only [Bool.not_eq_true] at hm
            simpa [receive_response, spec_receive, frames_upto_complete,
              Frame.matchesId, Frame.isComplete, Frame.contentOf, hm] using ih

theorem find?_append_none {α : Type} (p : α → Bool) (l1 l2 : List α)
    (h : ∀ x ∈ l1, p x = false) :
    List.find? p (l1 ++ l2) = List.find? p l2 := by
  induction l1 with
  | nil => rfl
  | cons x l ih =>
      have hx := h x (List.mem_cons_self _ _)
      simp [List.find?_cons, hx,
        ih (fun y hy => h y (List.mem_cons_of_mem _ hy))]

/-- C10: `_send_request` on a chat context without any `"user"`-role item
raises "No user message found" before transmitting anything or touching the
response-id counter; on a context whose most recent user message is `m`,
the request carries exactly that one message as its transcript and is
assigned response id `counter + 1`, strictly greater than the previous
counter value. -/
theorem send_request_contract (items pre post : List ChatItem) (m : ChatItem)
    (counter : ℤ) :
    ((∀ x ∈ items, x.role ≠ "user") →
      send_request items counter = (Except.error "No user message found", counter)) ∧
    (m.role = "user" → (∀ x ∈ post, x.role ≠ "user") →
      send_request (pre ++ m :: post) counter =
        (Except.ok ⟨"response_required", counter + 1,
            [("user", extract_message_content m.content)]⟩, counter + 1)) ∧
    counter < counter + 1 := by
  refine ⟨?_, ?_, by omega⟩
  · intro h
    have hnone : latest_user_message items = none := by
      rw [latest_user_message, List.find?_eq_none]
      intro x hx
      have := h x (List.mem_reverse.mp hx)
      simpa using this
    simp [send_request, hnone]
  · intro hm hpost
    have hrev : (pre ++ m :: post).reverse = post.reverse ++ m :: pre.reverse := by
      simp
    have hnone : ∀ x ∈ post.reverse, (x.role == "user") = false := by
      intro x hx
      have := hpost x (List.mem_reverse.mp hx)
      simpa using this
    have hfind : latest_user_message (pre ++ m :: post) = some m := by
      rw [latest_user_message, hrev, find?_append_none _ _ _ hnone]
      simp [List.find?_cons, hm]
    simp [send_request, hfind]

/-- Witness for C10 on concrete chat contexts. -/
theorem send_request_contract_check :
    send_request [⟨"assistant", MsgContent.str "hi"⟩] 3
      = (Except.error "No user message found", 3) ∧
    send_request [⟨"user", MsgContent.str "old"⟩,
        ⟨"user", MsgContent.parts ["a", "b"]⟩,
        ⟨"assistant", MsgContent.str "x"⟩] 3
      = (Except.ok ⟨"response_required", 4, [("user", "a b")]⟩, 4) := by
  constructor
  · exact (send_request_contract [⟨"assistant", MsgContent.str "hi"⟩] [] []
      ⟨"user", MsgContent.str ""⟩ 3).1 (by decide)
  · have h := (send_request_contract [] [⟨"user", MsgContent.str "old"⟩]
      [⟨"assistant", MsgContent.str "x"⟩] ⟨"user", MsgContent.parts ["a", "b"]⟩ 3).2.1
      rfl (by decide)
    simpa [extract_message_content] using h

/-- Witness for C1's amended statement at a concrete state. -/
theorem end_call_recording_only_once_check :
    countInserts (end_call ⟨true, false, "room-1"⟩ "English" false false).2 = 1 ∧
    countInserts (end_call (end_call ⟨true, false, "room-1"⟩ "English" false false).1
        "Hindi" true true).2 = 0 ∧
    countHangups (end_call (end_call ⟨true, false, "room-1"⟩ "English" false false).1
        "Hindi" true true).2 = 1 := by
  have h := end_call_recording_only_once ⟨true, false, "room-1"⟩ "English" "Hindi"
    false true false true rfl rfl
  exact ⟨h.1, h.2.1, h.2.2.2.1⟩
